import Mathlib

/-!
Verification development for the inode-tree engine of a simulated
single-disk filesystem (source: src/inode.c).

The C code is shallowly embedded: machine integers become Nat (with
explicit mod 2^32 or mod 2^64 where C truncates), pointers that are only
used as out-parameters become Option addresses over an abstract memory,
the external Block Allocator becomes an oracle function from call index
and requested count to the returned value (the code treats a return value
of 0 as success), and heap allocation (malloc, realloc, strcpy on a fresh
buffer) is modelled as always succeeding.  Fallible or possibly
divergent C functions return Option: none models a failure exit or fuel
exhaustion (non-termination of the C recursion).
-/

/-- Width constants of the C integer types used by the code. -/
def U32 : Nat := 2 ^ 32

def U64 : Nat := 2 ^ 64

/-- Embedding of create_entry (inode.c:19-21): combines blockno and extent
into a single 64-bit value, `((uintptr_t)blockno << 32) | extent`.  The
uint32_t parameters are modelled by truncating the Nat arguments. -/
def create_entry (blockno extent : Nat) : Nat :=
  ((blockno % U32) <<< 32) ||| (extent % U32)

/-- High 32 bits of a packed entry, `(uint32_t)(entry >> 32)` (inode.c:26). -/
def entry_hi (entry : Nat) : Nat := (entry >>> 32) % U32

/-- Low 32 bits of a packed entry, `(uint32_t)entry` (inode.c:27). -/
def entry_lo (entry : Nat) : Nat := entry % U32

/-- Embedding of unpack_entry (inode.c:25-28).  The two uint32_t out
pointers are modelled as Option addresses into an abstract memory
`mem : Nat → Nat`; the function returns the updated memory.  Each store
is guarded by the NULL test of the corresponding pointer, exactly as in
the C code. -/
def unpack_entry (entry : Nat) (blockno extent : Option Nat) (mem : Nat → Nat) :
    Nat → Nat :=
  let m1 : Nat → Nat :=
    match blockno with
    | some a => fun x => if x = a then entry_hi entry else mem x
    | none => mem
  match extent with
  | some a => fun x => if x = a then entry_lo entry else m1 x
  | none => m1

/-- Packing then splitting: the low 32 bits of a packed entry are the
extent argument. -/
theorem entry_lo_create_entry (b e : Nat) (he : e < U32) :
    entry_lo (create_entry b e) = e := by
  have he32 : e % 2 ^ 32 = e := Nat.mod_eq_of_lt (by simpa [U32] using he)
  apply Nat.eq_of_testBit_eq
  intro i
  simp only [entry_lo, create_entry, U32] at *
  rw [Nat.testBit_mod_two_pow, Nat.testBit_or, Nat.testBit_shiftLeft, he32]
  by_cases h : i < 32
  · have : ¬ 32 ≤ i := by omega
    simp [h, this]
  · have h2 : (2 : Nat) ^ 32 ≤ 2 ^ i := Nat.pow_le_pow_right (by omega) (by omega)
    have hf : e.testBit i = false := Nat.testBit_lt_two_pow (by omega)
    simp [h, hf]

/-- Packing then splitting: the high 32 bits of a packed entry are the
blockno argument. -/
theorem entry_hi_create_entry (b e : Nat) (hb : b < U32) (he : e < U32) :
    entry_hi (create_entry b e) = b := by
  have hb32 : b % 2 ^ 32 = b := Nat.mod_eq_of_lt (by simpa [U32] using hb)
  have he32 : e % 2 ^ 32 = e := Nat.mod_eq_of_lt (by simpa [U32] using he)
  have hshift : (create_entry b e) >>> 32 = b := by
    apply Nat.eq_of_testBit_eq
    intro i
    simp only [create_entry, U32] at *
    rw [Nat.testBit_shiftRight, Nat.testBit_or, Nat.testBit_shiftLeft, hb32, he32]
    have h2 : (2 : Nat) ^ 32 ≤ 2 ^ (32 + i) := Nat.pow_le_pow_right (by omega) (by omega)
    have hetop : e.testBit (32 + i) = false := Nat.testBit_lt_two_pow (by omega)
    have hle : 32 ≤ 32 + i := by omega
    simp [hetop, hle]
  simp only [entry_hi, hshift, U32]
  exact Nat.mod_eq_of_lt hb

/-- C8: the entry codec is pure and total; for all 32-bit start_block and
length values, packing with create_entry and then unpacking with
unpack_entry (through two distinct non-NULL out pointers) recovers
exactly the original pair. -/
theorem create_entry_unpack_entry_round_trip (b e : Nat) (hb : b < U32) (he : e < U32)
    (mem : Nat → Nat) :
    unpack_entry (create_entry b e) (some 0) (some 1) mem 0 = b ∧
    unpack_entry (create_entry b e) (some 0) (some 1) mem 1 = e := by
  constructor
  · show (if (0 : Nat) = 1 then entry_lo (create_entry b e)
      else if (0 : Nat) = 0 then entry_hi (create_entry b e) else mem 0) = b
    simp [entry_hi_create_entry b e hb he]
  · show (if (1 : Nat) = 1 then entry_lo (create_entry b e)
      else if (1 : Nat) = 0 then entry_hi (create_entry b e) else mem 1) = e
    simp [entry_lo_create_entry b e he]

/-- Witness for C8 at blockno 5, extent 7. -/
theorem create_entry_unpack_entry_round_trip_witness :
    unpack_entry (create_entry 5 7) (some 0) (some 1) (fun _ => 0) 0 = 5 ∧
    unpack_entry (create_entry 5 7) (some 0) (some 1) (fun _ => 0) 1 = 7 :=
  create_entry_unpack_entry_round_trip 5 7 (by decide) (by decide) (fun _ => 0)

/-- C9: unpack_entry is NULL-safe.  It writes the high 32 bits through the
blockno pointer only when that pointer is non-NULL and the low 32 bits
through the extent pointer only when that pointer is non-NULL; memory at
every other address is untouched, and with both pointers NULL it has no
effect at all. -/
theorem unpack_entry_null_safe (entry : Nat) (mem : Nat → Nat) (a b x : Nat) :
    unpack_entry entry none none mem x = mem x ∧
    unpack_entry entry (some a) none mem a = entry_hi entry ∧
    unpack_entry entry none (some b) mem b = entry_lo entry ∧
    (x ≠ a → unpack_entry entry (some a) none mem x = mem x) ∧
    (x ≠ b → unpack_entry entry none (some b) mem x = mem x) ∧
    (x ≠ a → x ≠ b → unpack_entry entry (some a) (some b) mem x = mem x) := by
  refine ⟨rfl, ?_, ?_, ?_, ?_, ?_⟩
  · show (if a = a then entry_hi entry else mem a) = entry_hi entry
    simp
  · show (if b = b then entry_lo entry else mem b) = entry_lo entry
    simp
  · intro hxa
    show (if x = a then entry_hi entry else mem x) = mem x
    simp [hxa]
  · intro hxb
    show (if x = b then entry_lo entry else mem x) = mem x
    simp [hxb]
  · intro hxa hxb
    show (if x = b then entry_lo entry
      else if x = a then entry_hi entry else mem x) = mem x
    simp [hxa, hxb]

/-- Witness for C9 at a concrete entry, addresses and memory. -/
theorem unpack_entry_null_safe_witness :
    unpack_entry 7 (some 0) (some 1) (fun _ => 9) 5 = 9 :=
  (unpack_entry_null_safe 7 (fun _ => 9) 0 1 5).2.2.2.2.2 (by decide) (by decide)

/-- Embedding of struct inode (inode.h).  The is_directory flag of the C
struct becomes the constructor; a file node carries its packed 64-bit
extent entries, a directory node carries its child inodes (the C code
stores child pointers in the same uintptr_t array). -/
inductive Inode : Type where
  | file : (id : Nat) → (name : List Nat) → (is_readonly : Nat) →
      (filesize : Nat) → (entries : List Nat) → Inode
  | dir : (id : Nat) → (name : List Nat) → (is_readonly : Nat) →
      (children : List Inode) → Inode

/-- The id field of an inode. -/
def Inode.idOf : Inode → Nat
  | .file i _ _ _ _ => i
  | .dir i _ _ _ => i

/-- The name field of an inode (bytes of the C string, without the
terminating NUL). -/
def Inode.nameOf : Inode → List Nat
  | .file _ n _ _ _ => n
  | .dir _ n _ _ => n

/-- The is_directory flag of an inode. -/
def Inode.isDir : Inode → Bool
  | .file _ _ _ _ _ => false
  | .dir _ _ _ _ => true

/-- The num_entries field of an inode. -/
def Inode.numEntries : Inode → Nat
  | .file _ _ _ _ es => es.length
  | .dir _ _ _ cs => cs.length

/-- The packed entries array of a file inode.  Only meaningful for files;
on a directory the C array holds child pointers, which the typed model
keeps in the children list instead. -/
def Inode.packedEntries : Inode → List Nat
  | .file _ _ _ _ es => es
  | .dir _ _ _ _ => []

mutual

/-- Embedding of find_inode_by_name (inode.c:246-266): pre-order search,
the node itself first, then (for directories) each child subtree in
order. -/
def find_inode_by_name (parent : Inode) (name : List Nat) : Option Inode :=
  match parent with
  | .file _ n _ _ _ => if n = name then some parent else none
  | .dir _ n _ cs => if n = name then some parent else find_in_children cs name

/-- The child loop of find_inode_by_name (inode.c:256-262). -/
def find_in_children (cs : List Inode) (name : List Nat) : Option Inode :=
  match cs with
  | [] => none
  | c :: rest =>
      match find_inode_by_name c name with
      | some node => some node
      | none => find_in_children rest name

end

/-- State threaded through allocate_blocks: the number of allocate_block
calls made so far, the entry writes performed on the caller supplied
entries array (pairs of array index and packed entry value, in program
order), and the num_entries counter the function increments through its
out pointer. -/
structure ABState where
  calls : Nat
  writes : List (Nat × Nat)
  num_entries : Nat
  deriving DecidableEq, Repr

/-- Embedding of allocate_blocks (inode.c:111-154).  `alloc k count` is
the value returned by the external allocate_block for the k-th call of
the run; the code treats a zero return as success and stores that return
value as the blockno of the recorded entry.  `ptr` is the index into the
entries array the C pointer points at.  The uint32_t subtraction
`extent - 1` of the recursive call is modelled with an explicit
mod 2^32.  The outer Option is fuel exhaustion (the C recursion does not
terminate on some inputs); the inner Option is the returned pointer,
none standing for the NULL failure return. -/
def allocate_blocks (alloc : Nat → Nat → Nat) :
    Nat → Nat → Nat → ABState → Option (Option Nat × ABState)
  | 0, _, _, _ => none
  | fuel + 1, ptr, blocks_to_allocate, s =>
      let extent := if blocks_to_allocate ≤ 4 then blocks_to_allocate else 4
      let r1 := alloc s.calls extent
      let s1 : ABState := { s with calls := s.calls + 1 }
      if r1 = 0 then
        let s2 : ABState := { s1 with
          writes := s1.writes ++ [(ptr, create_entry r1 extent)],
          num_entries := s1.num_entries + 1 }
        let ptr2 := ptr + 1
        if blocks_to_allocate - extent = 0 then
          allocate_blocks alloc fuel (ptr2 + extent) (blocks_to_allocate - extent) s2
        else
          some (some (ptr2 - 1), s2)
      else if extent = 1 then
        some (none, s1)
      else
        let r2 := alloc s1.calls 1
        let s2 : ABState := { s1 with calls := s1.calls + 1 }
        if r2 ≠ 0 then
          some (none, s2)
        else
          let s3 : ABState := { s2 with
            writes := s2.writes ++ [(ptr, create_entry r2 1)],
            num_entries := s2.num_entries + 1 }
          let ptr2 := ptr + 1
          match allocate_blocks alloc fuel ptr2 ((extent + U32 - 1) % U32) s3 with
          | none => none
          | some (none, s4) => some (none, s4)
          | some (some rp, s4) =>
              let ptr3 := rp + 1
              if blocks_to_allocate - extent = 0 then
                allocate_blocks alloc fuel (ptr3 + extent) (blocks_to_allocate - extent) s4
              else
                some (some (ptr3 - 1), s4)

/-- Sum of the block counts (low 32 bits) of the recorded entry writes. -/
def sum_extents (writes : List (Nat × Nat)) : Nat :=
  writes.foldl (fun a w => a + entry_lo w.2) 0

/-- C2 evaluated at the failing input: with an allocator that never fails
(always returns 0, which the code treats as success), a request for 10
blocks returns success after a single allocator call, having recorded one
extent of 4 blocks; the recorded extents sum to 4, not 10, because the
tail test `!(blocks_to_allocate - extent)` recurses only when the
remaining count is zero and otherwise returns immediately. -/
theorem allocate_blocks_ten_blocks_records_only_four :
    allocate_blocks (fun _ _ => 0) 100 0 10 ⟨0, [], 0⟩
      = some (some 0, ⟨1, [(0, create_entry 0 4)], 1⟩) ∧
    sum_extents [(0, create_entry 0 4)] = 4 ∧ ¬ (4 = 10) := by
  refine ⟨rfl, rfl, by decide⟩

/-- Embedding of the successful add_inode path (inode.c:83-104): the new
node is appended at index num_entries of the reallocated entries array
and the count grows by one.  Allocation (realloc) is modelled as
succeeding; on a file parent the C code would corrupt the packed entry
array, a case no caller of the model reaches because both delete
operations and the theorems guard on the directory flag. -/
def add_inode_child (parent new : Inode) : Inode :=
  match parent with
  | .file i n r f es => .file i n r f es
  | .dir i n r cs => .dir i n r (cs ++ [new])

/-- Embedding of get_new_id (inode.c:12-15): increments the int counter
max_id and returns it converted to uint32_t. -/
def get_new_id (max_id : Int) : Nat × Int :=
  (((max_id + 1).emod (U32 : Nat)).toNat, max_id + 1)

/-- The disk blocks released by the loops of free_file (inode.c:41-46):
for each packed entry, the blocks blockno, blockno+1, ...,
blockno+extent-1. -/
def free_file_blocks (entries : List Nat) : List Nat :=
  entries.flatMap fun en => (List.range (entry_lo en)).map fun j => entry_hi en + j

/-- Contents of the first num slots of the entries array after the write
log of allocate_blocks: the last write to each index wins; a slot never
written holds indeterminate malloc garbage, rendered here as 0 (no
theorem in this file evaluates such a slot). -/
def entries_array (writes : List (Nat × Nat)) (num : Nat) : List Nat :=
  (List.range num).map fun i =>
    (((writes.filter fun w => w.1 = i).getLast?).map Prod.snd).getD 0

/-- Observable outcome of one create_file call: the returned pointer, the
parent after the call, the number of allocate_block calls, the blocks
passed to free_block, and the id counter after the call. -/
structure CFOut where
  ret : Option Inode
  parentAfter : Inode
  allocCalls : Nat
  freedBlocks : List Nat
  maxIdAfter : Int

/-- Embedding of create_file (inode.c:159-212).  Heap allocation always
succeeds in the model, so the code path is: name/size guard, then
allocate_blocks; on its failure, free_file releases the recorded entries;
on its success the node is built, add_inode links it into parent and
returns 0, and the inverted test `!add_inode(...)` (inode.c:206) then
frees the freshly linked node and returns NULL.  The outer Option is
fuel exhaustion inside allocate_blocks. -/
def create_file (alloc : Nat → Nat → Nat) (fuel BLOCKSIZE : Nat) (max_id : Int)
    (parent : Inode) (name : List Nat) (readonly : Nat) (size_in_bytes : Nat) :
    Option CFOut :=
  let entire_file_blockno := (size_in_bytes + BLOCKSIZE - 1) / BLOCKSIZE
  match find_inode_by_name parent name with
  | some _ => some ⟨none, parent, 0, [], max_id⟩
  | none =>
      if size_in_bytes = 0 then some ⟨none, parent, 0, [], max_id⟩
      else
        match allocate_blocks alloc fuel 0 entire_file_blockno ⟨0, [], 0⟩ with
        | none => none
        | some (none, s) =>
            some ⟨none, parent, s.calls,
              free_file_blocks (entries_array s.writes s.num_entries), max_id⟩
        | some (some _, s) =>
            let entries := entries_array s.writes s.num_entries
            let newid := get_new_id max_id
            let new_file := Inode.file newid.1 name readonly (size_in_bytes % U32) entries
            some ⟨none, add_inode_child parent new_file, s.calls,
              free_file_blocks entries, newid.2⟩

/-- Observable outcome of one create_dir call. -/
structure CDOut where
  ret : Option Inode
  parentAfter : Inode
  allocCalls : Nat
  maxIdAfter : Int

/-- Embedding of create_dir (inode.c:216-244).  There is no name check of
any kind; with heap allocation succeeding, the new directory is built,
add_inode links it into parent and returns 0, and the inverted test
`!add_inode(...)` (inode.c:237) frees it and returns NULL. -/
def create_dir (max_id : Int) (parent : Inode) (name : List Nat) : CDOut :=
  let newid := get_new_id max_id
  let new_dir := Inode.dir newid.1 name 0 []
  ⟨none, add_inode_child parent new_dir, 0, newid.2⟩

/-- The scan loop of delete_inode (inode.c:60-66): the first entry whose
id matches is overwritten with the entry in the last position and the
scan breaks. -/
def swap_remove : List Inode → Nat → Inode → List Inode
  | [], _, _ => []
  | c :: rest, nid, lastel =>
      if c.idOf = nid then lastel :: rest else c :: swap_remove rest nid lastel

/-- The children of parent after delete_inode (inode.c:57-78): the scan
overwrites the first id match with the last entry, then num_entries is
decremented unconditionally, dropping the last slot.  The default value
of getLast? is never used on the inputs the theorems evaluate (the C code
reads entries[num_entries - 1], which on an empty directory would index
with the wrapped-around uint32). -/
def delete_inode_children (cs : List Inode) (node : Inode) : List Inode :=
  (swap_remove cs node.idOf ((cs.getLast?).getD (Inode.dir 0 [] 0 []))).dropLast

/-- Embedding of delete_inode (inode.c:57-78) with realloc modelled as
succeeding, so the function returns 0 and the parent ends up with the
children computed by delete_inode_children. -/
def delete_inode (parent node : Inode) : Inode :=
  match parent with
  | .file i n r f es => .file i n r f es
  | .dir pid pname pro cs => .dir pid pname pro (delete_inode_children cs node)

/-- Embedding of delete_file (inode.c:270-278): the guard rejects a
non-directory parent, a directory node, and a node whose NAME is absent
from the whole subtree of parent (the C code checks membership by
find_inode_by_name, not by the parent/child relation); then free_file
releases the blocks of every extent of node and delete_inode removes it.
Returns none for the -1 error, otherwise the parent after the call and
the blocks passed to free_block. -/
def delete_file (parent node : Inode) : Option (Inode × List Nat) :=
  if parent.isDir = false ∨ node.isDir = true then none
  else
    match find_inode_by_name parent node.nameOf with
    | none => none
    | some _ => some (delete_inode parent node, free_file_blocks node.packedEntries)

/-- Embedding of delete_dir (inode.c:282-291): the guard rejects a
non-directory parent, a non-directory node, a node with entries, and a
node whose name is absent from the subtree of parent; then the name is
freed and delete_inode removes the node.  none is the -1 error return. -/
def delete_dir (parent node : Inode) : Option Inode :=
  if parent.isDir = false ∨ node.isDir = false ∨ node.numEntries ≠ 0 then none
  else
    match find_inode_by_name parent node.nameOf with
    | none => none
    | some _ => some (delete_inode parent node)

/-- C3 evaluated at a valid input (empty root directory, fresh name "a",
size 2560 = 5 blocks of 512, allocator always succeeding): create_file
is required to return the new file linked into parent with extents
covering 5 blocks, but the code returns NULL after add_inode has already
linked the node (the test `!add_inode(...)` treats the 0 success return
as failure and frees the node), and the extents recorded by
allocate_blocks cover only 4 of the 5 required blocks. -/
theorem create_file_valid_input_returns_null :
    create_file (fun _ _ => 0) 100 512 1 (Inode.dir 1 [114] 0 []) [97] 0 2560
      = some ⟨none, Inode.dir 1 [114] 0 [Inode.file 2 [97] 0 2560 [create_entry 0 4]],
          1, [0, 1, 2, 3], 2⟩ := rfl

/-- C4 evaluated at a failing call (valid arguments, name "b", size 3000 =
6 blocks of 512): create_file returns the error value NULL, yet the
parent is not left unchanged - it has gained an entry (the freed node),
so a failing call mutates the inode tree. -/
theorem create_file_failure_mutates_tree :
    create_file (fun _ _ => 0) 100 512 1 (Inode.dir 1 [114] 0 []) [98] 0 3000
      = some ⟨none, Inode.dir 1 [114] 0 [Inode.file 2 [98] 0 3000 [create_entry 0 4]],
          1, [0, 1, 2, 3], 2⟩ ∧
    Inode.dir 1 [114] 0 [Inode.file 2 [98] 0 3000 [create_entry 0 4]]
      ≠ Inode.dir 1 [114] 0 [] := by
  refine ⟨rfl, ?_⟩
  intro h
  injection h with h1 h2 h3 h4
  exact List.noConfusion h4

/-- C5 evaluated at a name collision (name "a" already present under the
root): create_file rejects the call before any allocator call and leaves
the parent unchanged, but create_dir performs no name check at all - it
assigns a fresh id and links a second node named "a" into the parent
(returning NULL only because of the inverted add_inode test). -/
theorem create_with_colliding_name :
    create_file (fun _ _ => 0) 100 512 2 (Inode.dir 1 [114] 0 [Inode.dir 2 [97] 0 []]) [97] 0 2560
      = some ⟨none, Inode.dir 1 [114] 0 [Inode.dir 2 [97] 0 []], 0, [], 2⟩ ∧
    create_dir 2 (Inode.dir 1 [114] 0 [Inode.dir 2 [97] 0 []]) [97]
      = ⟨none, Inode.dir 1 [114] 0 [Inode.dir 2 [97] 0 [], Inode.dir 3 [97] 0 []], 0, 3⟩ :=
  ⟨rfl, rfl⟩

/-- C6 evaluated at a file that is NOT a direct child of parent (it is a
grandchild, inside the subdirectory "d"): delete_file is required to fail
and leave parent unchanged, but the code succeeds - the whole-subtree
name search finds the name, free_file releases the blocks of the file,
and delete_inode, finding no id match among the direct children,
decrements num_entries anyway and silently drops the last entry of
parent (the subdirectory "d", together with the whole subtree under
it). -/
theorem delete_file_grandchild_succeeds_and_corrupts :
    delete_file
        (Inode.dir 1 [114] 0
          [Inode.dir 2 [100] 0 [Inode.file 3 [102] 0 512 [create_entry 7 1]]])
        (Inode.file 3 [102] 0 512 [create_entry 7 1])
      = some (Inode.dir 1 [114] 0 [], [7]) := rfl

/-- A search for the name of the root itself succeeds immediately. -/
theorem find_inode_by_name_self (t : Inode) : find_inode_by_name t t.nameOf = some t := by
  cases t <;> simp [find_inode_by_name, Inode.nameOf]

/-- If the search succeeds in one member of the child list, the loop over
the children succeeds. -/
theorem find_in_children_ne_none {cs : List Inode} {c : Inode} {name : List Nat}
    (hmem : c ∈ cs) (hc : find_inode_by_name c name ≠ none) :
    find_in_children cs name ≠ none := by
  induction cs with
  | nil => cases hmem
  | cons a rest ih =>
      simp only [find_in_children]
      cases hfa : find_inode_by_name a name with
      | some w => simp
      | none =>
          simp only
          rcases List.mem_cons.mp hmem with h | h
          · exact absurd hfa (h ▸ hc)
          · exact ih h

/-- A name of a direct child is always found in the subtree of the
parent. -/
theorem find_parent_ne_none {pid pro : Nat} {pname : List Nat} {cs : List Inode} {node : Inode}
    (hmem : node ∈ cs) :
    find_inode_by_name (Inode.dir pid pname pro cs) node.nameOf ≠ none := by
  simp only [find_inode_by_name]
  by_cases h : pname = node.nameOf
  · simp [h]
  · simp only [if_neg h]
    exact find_in_children_ne_none hmem (by rw [find_inode_by_name_self]; simp)

/-- The swap-remove scan of delete_inode replaces the first id match,
which under the id hypotheses is the node itself, with the supplied last
element and keeps everything else. -/
theorem swap_remove_split {cs : List Inode} {node : Inode} (l : Inode)
    (hmem : node ∈ cs) (huniq : ∀ c ∈ cs, c.idOf = node.idOf → c = node) :
    ∃ l₁ l₂, cs = l₁ ++ node :: l₂ ∧ node ∉ l₁ ∧
      swap_remove cs node.idOf l = l₁ ++ l :: l₂ := by
  induction cs with
  | nil => cases hmem
  | cons a rest ih =>
      by_cases h : a.idOf = node.idOf
      · have ha : a = node := huniq a (List.mem_cons_self a rest) h
        refine ⟨[], rest, by rw [ha]; rfl, by simp, ?_⟩
        simp [swap_remove, h]
      · have hane : a ≠ node := fun he => h (he ▸ rfl)
        have hmem2 : node ∈ rest := by
          rcases List.mem_cons.mp hmem with h1 | h1
          · exact absurd h1.symm hane
          · exact h1
        obtain ⟨l₁, l₂, he, hn, hs⟩ :=
          ih hmem2 (fun c hc hid => huniq c (List.mem_cons_of_mem a hc) hid)
        refine ⟨a :: l₁, l₂, by rw [List.cons_append, ← he], ?_, ?_⟩
        · intro hin
          rcases List.mem_cons.mp hin with h1 | h1
          · exact hane h1.symm
          · exact hn h1
        · simp [swap_remove, h, hs]

/-- delete_inode on a parent whose children contain the node (with
pairwise distinct children and no other child sharing the id of node)
removes exactly that node: one entry fewer and the node no longer
present. -/
theorem delete_inode_children_spec {cs : List Inode} {node : Inode}
    (hmem : node ∈ cs) (hnodup : cs.Nodup)
    (huniq : ∀ c ∈ cs, c.idOf = node.idOf → c = node) :
    (delete_inode_children cs node).length + 1 = cs.length ∧
    node ∉ delete_inode_children cs node := by
  obtain ⟨l₁, l₂, hsplit, hnl₁, hs⟩ :=
    swap_remove_split ((cs.getLast?).getD (Inode.dir 0 [] 0 [])) hmem huniq
  have hnl₂ : node ∉ l₂ := by
    have h2 : (l₁ ++ node :: l₂).Nodup := hsplit ▸ hnodup
    exact (List.nodup_cons.mp h2.of_append_right).1
  rcases List.eq_nil_or_concat l₂ with hnil | ⟨ys, z, hconc⟩
  · subst hnil
    have hlast : cs.getLast? = some node := by rw [hsplit, List.getLast?_concat]
    have hlastel : (cs.getLast?).getD (Inode.dir 0 [] 0 []) = node := by rw [hlast]; rfl
    rw [hlastel] at hs
    have hdrop : delete_inode_children cs node = l₁ := by
      unfold delete_inode_children
      rw [hlastel, hs, List.dropLast_concat]
    rw [hdrop, hsplit]
    refine ⟨by simp, hnl₁⟩
  · rw [List.concat_eq_append] at hconc
    subst hconc
    have hcs2 : cs = (l₁ ++ node :: ys) ++ [z] := by rw [hsplit]; simp
    have hlast : cs.getLast? = some z := by rw [hcs2, List.getLast?_concat]
    have hlastel : (cs.getLast?).getD (Inode.dir 0 [] 0 []) = z := by rw [hlast]; rfl
    rw [hlastel] at hs
    have hdrop : delete_inode_children cs node = l₁ ++ z :: ys := by
      unfold delete_inode_children
      rw [hlastel, hs, List.dropLast_append_cons]
      rw [show z :: (ys ++ [z]) = (z :: ys) ++ [z] from rfl, List.dropLast_concat]
    constructor
    · rw [hdrop, hsplit]
      simp only [List.length_append, List.length_cons, List.length_nil]
      omega
    · rw [hdrop]
      intro hin
      rcases List.mem_append.mp hin with h1 | h1
      · exact hnl₁ h1
      · rcases List.mem_cons.mp h1 with h2 | h2
        · exact hnl₂ (by rw [h2]; exact List.mem_append_right ys (by simp))
        · exact hnl₂ (List.mem_append_left [z] h2)

/-- C7: for every directory node that is a direct child of the directory
parent (with the tree-wide id uniqueness invariant restricted to the
sibling list), delete_dir fails when the node has at least one entry, and
succeeds when it has zero entries, in which case the node is removed from
the parent and the entry count of the parent decreases by exactly one. -/
theorem delete_dir_of_direct_child (pid pro : Nat) (pname : List Nat) (cs : List Inode)
    (node : Inode) (hdir : node.isDir = true) (hmem : node ∈ cs) (hnodup : cs.Nodup)
    (huniq : ∀ c ∈ cs, c.idOf = node.idOf → c = node) :
    (node.numEntries ≠ 0 → delete_dir (Inode.dir pid pname pro cs) node = none) ∧
    (node.numEntries = 0 →
      delete_dir (Inode.dir pid pname pro cs) node
          = some (Inode.dir pid pname pro (delete_inode_children cs node)) ∧
      (delete_inode_children cs node).length + 1 = cs.length ∧
      node ∉ delete_inode_children cs node) := by
  constructor
  · intro hne
    unfold delete_dir
    rw [if_pos (Or.inr (Or.inr hne))]
  · intro h0
    have hcond : ¬((Inode.dir pid pname pro cs).isDir = false ∨
        node.isDir = false ∨ node.numEntries ≠ 0) := by
      intro hor
      rcases hor with h1 | h1 | h1
      · exact absurd h1 (by simp [Inode.isDir])
      · rw [hdir] at h1
        exact absurd h1 (by decide)
      · exact h1 h0
    have hfind := @find_parent_ne_none pid pro pname cs node hmem
    obtain ⟨w, hw⟩ := Option.ne_none_iff_exists'.mp hfind
    refine ⟨?_, (delete_inode_children_spec hmem hnodup huniq).1,
      (delete_inode_children_spec hmem hnodup huniq).2⟩
    unfold delete_dir
    rw [if_neg hcond, hw]
    rfl

/-- Witness for C7: a concrete empty direct child is removed (entry count
1 drops to 0) and a concrete non-empty direct child is rejected. -/
theorem delete_dir_of_direct_child_witness :
    (delete_dir (Inode.dir 1 [114] 0 [Inode.dir 2 [100] 0 []]) (Inode.dir 2 [100] 0 [])
        = some (Inode.dir 1 [114] 0
            (delete_inode_children [Inode.dir 2 [100] 0 []] (Inode.dir 2 [100] 0 []))) ∧
      (delete_inode_children [Inode.dir 2 [100] 0 []] (Inode.dir 2 [100] 0 [])).length + 1 = 1 ∧
      Inode.dir 2 [100] 0 []
        ∉ delete_inode_children [Inode.dir 2 [100] 0 []] (Inode.dir 2 [100] 0 [])) ∧
    delete_dir (Inode.dir 1 [114] 0 [Inode.dir 2 [100] 0 [Inode.dir 3 [101] 0 []]])
        (Inode.dir 2 [100] 0 [Inode.dir 3 [101] 0 []]) = none := by
  constructor
  · exact (delete_dir_of_direct_child 1 0 [114] [Inode.dir 2 [100] 0 []]
      (Inode.dir 2 [100] 0 []) rfl (by simp) (by simp)
      (by intro c hc h; simpa using hc)).2 rfl
  · exact (delete_dir_of_direct_child 1 0 [114]
      [Inode.dir 2 [100] 0 [Inode.dir 3 [101] 0 []]]
      (Inode.dir 2 [100] 0 [Inode.dir 3 [101] 0 []]) rfl (by simp) (by simp)
      (by intro c hc h; simpa using hc)).1 (by decide)

/-- Embedding of write (inode.c:294-301): four bytes of a uint32 in
little-endian order, writer[i] = (char)(bytes >> i*8). -/
def le32 (n : Nat) : List Nat :=
  [(n >>> 0) % 256, (n >>> 8) % 256, (n >>> 16) % 256, (n >>> 24) % 256]

/-- The file branch of save_inodes_recursive (inode.c:326-333): for each
packed entry, blockno then extent, four bytes each. -/
def save_file_entries (es : List Nat) : List Nat :=
  es.flatMap fun en => le32 (entry_hi en) ++ le32 (entry_lo en)

mutual

/-- Embedding of save_inodes_recursive (inode.c:304-335): id, length of
the name including the terminating NUL, the name bytes with the NUL, the
is_directory byte, the is_readonly byte, then for a directory the child
records each preceded by the pair (child id, 0), and for a file the
extent pairs.  Note that neither filesize nor num_entries is written. -/
def save_inodes_recursive : Inode → List Nat
  | .file id name ro _ es =>
      le32 id ++ le32 (name.length + 1) ++ (name ++ [0]) ++ [0, ro % 256]
        ++ save_file_entries es
  | .dir id name ro cs =>
      le32 id ++ le32 (name.length + 1) ++ (name ++ [0]) ++ [1, ro % 256]
        ++ save_children cs

/-- The directory child loop of save_inodes_recursive (inode.c:319-324). -/
def save_children : List Inode → List Nat
  | [] => []
  | c :: rest => le32 c.idOf ++ le32 0 ++ save_inodes_recursive c ++ save_children rest

end

/-- Reading one byte; none models safe_fread hitting end of stream, which
prints an error and exits the process (inode.c:343-350). -/
def readByte : List Nat → Option (Nat × List Nat)
  | [] => none
  | b :: rest => some (b, rest)

/-- Reading a uint32, little-endian host order. -/
def readU32 : List Nat → Option (Nat × List Nat)
  | b0 :: b1 :: b2 :: b3 :: rest =>
      some (b0 + 2 ^ 8 * b1 + 2 ^ 16 * b2 + 2 ^ 24 * b3, rest)
  | _ => none

/-- Reading a uint64, little-endian host order. -/
def readU64 : List Nat → Option (Nat × List Nat)
  | b0 :: b1 :: b2 :: b3 :: b4 :: b5 :: b6 :: b7 :: rest =>
      some (b0 + 2 ^ 8 * b1 + 2 ^ 16 * b2 + 2 ^ 24 * b3 + 2 ^ 32 * b4
        + 2 ^ 40 * b5 + 2 ^ 48 * b6 + 2 ^ 56 * b7, rest)
  | _ => none

/-- Reading a counted byte buffer (the name field). -/
def readBytes (n : Nat) (bs : List Nat) : Option (List Nat × List Nat) :=
  if n ≤ bs.length then some (bs.take n, bs.drop n) else none

/-- Reading num_entries packed 64-bit entries. -/
def readU64List : Nat → List Nat → Option (List Nat × List Nat)
  | 0, bs => some ([], bs)
  | n + 1, bs => do
      let (v, bs1) ← readU64 bs
      let (vs, bs2) ← readU64List n bs1
      pure (v :: vs, bs2)

/-- One inode as read by phase 1 of the loader, before reference
resolution: the fields of read_next_inode (inode.c:352-391). -/
structure RawInode where
  id : Nat
  name : List Nat
  is_directory : Nat
  is_readonly : Nat
  filesize : Nat
  num_entries : Nat
  entries : List Nat
  deriving DecidableEq, Repr

/-- Embedding of read_next_inode (inode.c:352-391): id, name_length, the
name bytes, the is_directory byte, the is_readonly byte, a filesize word
only when is_directory is 0x00, then num_entries and that many 64-bit
entries.  This is the field set the READER expects; the writer above
emits neither filesize nor num_entries. -/
def read_next_inode (bs : List Nat) : Option (RawInode × List Nat) := do
  let (id, bs1) ← readU32 bs
  let (name_length, bs2) ← readU32 bs1
  let (name, bs3) ← readBytes name_length bs2
  let (isdir, bs4) ← readByte bs3
  let (isro, bs5) ← readByte bs4
  let (filesize, bs6) ← if isdir = 0 then readU32 bs5 else pure (0, bs5)
  let (num_entries, bs7) ← readU32 bs6
  let (entries, bs8) ← readU64List num_entries bs7
  pure (⟨id, name, isdir, isro, filesize, num_entries, entries⟩, bs8)

/-- The read loop of load_inodes (inode.c:419-427): records are read until
the stream position reaches the end of the file.  The fuel argument only
bounds the recursion; every successful read consumes at least 14 bytes,
so fuel equal to the stream length is always enough. -/
def read_all_inodes : Nat → List Nat → Option (List RawInode)
  | _, [] => some []
  | 0, _ :: _ => none
  | fuel + 1, bs => do
      let (r, rest) ← read_next_inode bs
      let rs ← read_all_inodes fuel rest
      pure (r :: rs)

/-- Conversion of a uint32_t value to the int variable of the max_id
update loop (inode.c:430), two-sided complement reinterpretation. -/
def toInt32 (u : Nat) : Int :=
  if u % U32 < 2 ^ 31 then ((u % U32 : Nat) : Int)
  else ((u % U32 : Nat) : Int) - ((U32 : Nat) : Int)

/-- The max_id update loop of load_inodes (inode.c:429-433): every loaded
id, converted to int, is folded into the running maximum. -/
def max_id_after (m0 : Int) (rs : List RawInode) : Int :=
  rs.foldl (fun m r => if toInt32 r.id > m then toInt32 r.id else m) m0

/-- The reference-resolution pass of load_inodes (inode.c:435-451): for
every record whose is_directory byte is exactly 0x01, each raw entry,
truncated to uint32, must match the id of some loaded record; otherwise
the process exits (DanglingReference). -/
def resolve_ok (rs : List RawInode) : Bool :=
  rs.all fun r =>
    if r.is_directory = 1 then
      r.entries.all fun en => rs.any fun r2 => r2.id = en % U32
    else true

/-- Embedding of load_inodes (inode.c:412-460): phase 1 reads records to
the end of the stream, phase 2 folds the id maximum into max_id and
resolves directory references, aborting the whole load on any failure.
On success it returns the loaded records (the first being the root) and
the updated max_id. -/
def load_inodes (bs : List Nat) (m0 : Int) : Option (List RawInode × Int) :=
  match read_all_inodes bs.length bs with
  | none => none
  | some rs => if resolve_ok rs then some (rs, max_id_after m0 rs) else none

/-- The id counter after n further get_new_id calls, paired with the
uint32 value returned by the last of them. -/
def run_get_new_id (m : Int) : Nat → Nat × Int
  | 0 => (0, m)
  | n + 1 => get_new_id (run_get_new_id m n).2

/-- C1 evaluated at the simplest tree, a single empty root directory:
save_inodes emits a 12-byte record without filesize or num_entries, but
read_next_inode demands both, so loading the saved stream runs off the
end of the file and safe_fread aborts the process (modelled as none).
The loaded result is not the saved tree; it is no tree at all. -/
theorem save_then_load_aborts :
    load_inodes (save_inodes_recursive (Inode.dir 1 [114] 0 [])) 0 = none := rfl

/-- After n get_new_id calls the int counter has advanced by n. -/
theorem run_get_new_id_snd (m : Int) (n : Nat) : (run_get_new_id m n).2 = m + n := by
  induction n with
  | zero => simp [run_get_new_id]
  | succ k ih =>
      show (get_new_id (run_get_new_id m k).2).2 = m + (k + 1 : Nat)
      rw [show ∀ x : Int, (get_new_id x).2 = x + 1 from fun _ => rfl, ih]
      push_cast
      ring

/-- The value returned by the n-th get_new_id call after the counter
stood at m. -/
theorem run_get_new_id_fst (m : Int) (n : Nat) (hn : 1 ≤ n) :
    (run_get_new_id m n).1 = ((m + n) % ((U32 : Nat) : Int)).toNat := by
  cases n with
  | zero => cases hn
  | succ k =>
      show (get_new_id (run_get_new_id m k).2).1 = _
      rw [show ∀ x : Int, (get_new_id x).1 = ((x + 1) % ((U32 : Nat) : Int)).toNat
        from fun _ => rfl, run_get_new_id_snd]
      congr 2
      push_cast
      ring

/-- The max_id fold never decreases the counter. -/
theorem le_max_id_after (m0 : Int) (rs : List RawInode) : m0 ≤ max_id_after m0 rs := by
  induction rs generalizing m0 with
  | nil => exact le_refl m0
  | cons r rest ih =>
      refine le_trans ?_ (ih (if toInt32 r.id > m0 then toInt32 r.id else m0))
      by_cases h : toInt32 r.id > m0
      · rw [if_pos h]
        exact le_of_lt h
      · rw [if_neg h]

/-- The max_id fold dominates the int reinterpretation of every loaded
id. -/
theorem mem_le_max_id_after {r : RawInode} {rs : List RawInode} (hr : r ∈ rs) (m0 : Int) :
    toInt32 r.id ≤ max_id_after m0 rs := by
  induction rs generalizing m0 with
  | nil => cases hr
  | cons a rest ih =>
      rcases List.mem_cons.mp hr with h | h
      · subst h
        refine le_trans ?_
          (le_max_id_after (if toInt32 r.id > m0 then toInt32 r.id else m0) rest)
        by_cases hgt : toInt32 r.id > m0
        · rw [if_pos hgt]
        · rw [if_neg hgt]
          exact le_of_not_lt hgt
      · exact ih h _

/-- Below 2^31 the int reinterpretation of a uint32 is the identity. -/
theorem toInt32_of_lt {u : Nat} (h : u < 2 ^ 31) : toInt32 u = (u : Int) := by
  have hu : u % U32 = u := Nat.mod_eq_of_lt (by simp only [U32]; omega)
  unfold toInt32
  rw [hu, if_pos h]

/-- A successful load returns exactly the folded id maximum as the new
max_id. -/
theorem load_inodes_eq (bs : List Nat) (m0 : Int) (rs : List RawInode) (m2 : Int)
    (h : load_inodes bs m0 = some (rs, m2)) :
    m2 = max_id_after m0 rs := by
  unfold load_inodes at h
  cases hra : read_all_inodes bs.length bs with
  | none => rw [hra] at h; cases h
  | some rs2 =>
      rw [hra] at h
      have h3 : (if resolve_ok rs2 = true then some (rs2, max_id_after m0 rs2) else none)
          = some (rs, m2) := h
      by_cases hres : resolve_ok rs2 = true
      · rw [if_pos hres] at h3
        have hinj := Option.some.inj h3
        have h1 : rs2 = rs := congrArg Prod.fst hinj
        have h2 : max_id_after m0 rs2 = m2 := congrArg Prod.snd hinj
        rw [← h2, h1]
      · rw [if_neg hres] at h3
        cases h3

/-- C10 as amended: after a successful load_inodes in which every loaded
id is below 2^31 (as holds for every id the code itself generates), the
returned max_id is at least every loaded id, and the id returned by every
subsequent get_new_id call (the n-th one, while the counter stays below
2^31) is strictly greater than, hence distinct from, every id present in
the loaded tree. -/
theorem load_inodes_small_ids_fresh (bs : List Nat) (m0 m2 : Int) (rs : List RawInode)
    (h : load_inodes bs m0 = some (rs, m2)) (hm0 : 0 ≤ m0)
    (hsmall : ∀ r ∈ rs, r.id < 2 ^ 31)
    (n : Nat) (hn : 1 ≤ n) (hov : m2 + (n : Int) < 2 ^ 31) :
    ∀ r ∈ rs, (r.id : Int) ≤ m2 ∧ r.id < (run_get_new_id m2 n).1 := by
  intro r hr
  have hmax : m2 = max_id_after m0 rs := load_inodes_eq bs m0 rs m2 h
  have hle : (r.id : Int) ≤ m2 := by
    rw [hmax]
    have hm := mem_le_max_id_after hr m0
    rwa [toInt32_of_lt (hsmall r hr)] at hm
  have hm2 : 0 ≤ m2 := hmax ▸ le_trans hm0 (le_max_id_after m0 rs)
  refine ⟨hle, ?_⟩
  rw [run_get_new_id_fst m2 n hn]
  have hpos : 0 ≤ m2 + (n : Int) := by omega
  have hlt : m2 + (n : Int) < ((U32 : Nat) : Int) := by
    have : ((U32 : Nat) : Int) = 2 ^ 32 := by simp [U32]
    omega
  rw [Int.emod_eq_of_lt hpos hlt]
  have hr2 : (r.id : Int) < m2 + (n : Int) := by omega
  exact Int.lt_toNat.mpr hr2

/-- Counterexample to C10 as stated: a well-formed 15-byte master file
table holding one directory record with id 2^31 loads successfully, but
the max_id update compares ids through a signed int, sees 2^31 as
negative, and leaves max_id at 0, which is NOT at least the maximum
loaded id. -/
theorem load_inodes_large_id_not_tracked :
    load_inodes [0, 0, 0, 128, 1, 0, 0, 0, 0, 1, 0, 0, 0, 0, 0] 0
        = some ([⟨2147483648, [0], 1, 0, 0, 0, []⟩], 0) ∧
    ¬ ((2147483648 : Int) ≤ 0) := ⟨rfl, by decide⟩

/-- Witness for the amended C10 at a one-record stream with id 1 and one
further get_new_id call, which returns 2. -/
theorem load_inodes_small_ids_fresh_witness :
    ((1 : Nat) : Int) ≤ 1 ∧ (1 : Nat) < (run_get_new_id 1 1).1 :=
  (load_inodes_small_ids_fresh [1, 0, 0, 0, 1, 0, 0, 0, 0, 1, 0, 0, 0, 0, 0] 0 1
      [⟨1, [0], 1, 0, 0, 0, []⟩] rfl (by decide) (by decide) 1 (by decide) (by decide))
    ⟨1, [0], 1, 0, 0, 0, []⟩ (by decide)
